import Mathlib

/-!
Shallow embedding of the real-time voice processing pipeline
(repository `Speech-Signal-Processing-and-Visualization`).

Modules embedded:
- `signal_processing/windows.py` : Hamming, Hanning and rectangular windows;
- `signal_processing/preprocessing.py` : `framing`;
- `signal_processing/time_features.py` : short-time energy and zero-crossing rate;
- `signal_processing/__init__.py` : the single-frame `SignalProcessing` wrappers;
- `signal_processing/vad.py` : `adaptive_voice_activity_detection`;
- `runtime/engine.py` : the auto-calibration block, the attack/hangover
  smoothing state machine of `_signal_processing_thread`, `set_audio_source`,
  and the bounded raw-sample queue of `_audio_capture_thread`.

Numeric model: numpy float values are idealised as rationals.  The value NaN
produced by `0.0 / 0` is modelled by `Option`: `none` is NaN (or any other
non-finite value), `some q` a finite float of value `q`.  The transcendental
`cos` is kept abstract: every definition that needs it receives a function
`cos2pi : Q -> Q` standing for `fun x => Real.cos (2 * pi * x)`; no theorem
below depends on its values.  Python integers are `Int`.
-/

/-- A numpy floating value: `none` models NaN, `some q` a finite value. -/
abbrev FV : Type := Option ℚ

/-- Floating multiplication; NaN propagates. -/
def fmul : FV → FV → FV
  | some a, some b => some (a * b)
  | _, _ => none

/-- Floating subtraction; NaN propagates. -/
def fsub : FV → FV → FV
  | some a, some b => some (a - b)
  | _, _ => none

/-- Floating division: division by zero yields a non-finite value (`0.0/0`
is NaN in numpy, which is the only case reached below); NaN propagates. -/
def fdiv : FV → FV → FV
  | some a, some b => if b = 0 then none else some (a / b)
  | _, _ => none

/-- Lift of the abstract cosine `cos2pi` (standing for `cos (2*pi*x)`) to
floating values; `cos` of NaN is NaN. -/
def fcos2pi (cos2pi : ℚ → ℚ) : FV → FV
  | some a => some (cos2pi a)
  | none => none

/-- `windows.hamming_window`: `0.54 - 0.46*cos(2*pi*i/(length-1))` for
`i = 0 .. length-1`; empty for `length <= 0`.  The argument of the cosine is
modelled as `cos2pi (i / (length - 1))`; at `length = 1` the quotient is
`0/0`, NaN. -/
def hamming_window (cos2pi : ℚ → ℚ) (length : Int) : List FV :=
  if length ≤ 0 then []
  else (List.range length.toNat).map fun (i : Nat) =>
    fsub (some (54/100))
      (fmul (some (46/100))
        (fcos2pi cos2pi (fdiv (some (i : ℚ)) (some ((length : ℚ) - 1)))))

/-- `windows.hanning_window`: `0.5*(1 - cos(2*pi*i/(length-1)))`; empty for
`length <= 0`. -/
def hanning_window (cos2pi : ℚ → ℚ) (length : Int) : List FV :=
  if length ≤ 0 then []
  else (List.range length.toNat).map fun (i : Nat) =>
    fmul (some (1/2))
      (fsub (some 1)
        (fcos2pi cos2pi (fdiv (some (i : ℚ)) (some ((length : ℚ) - 1)))))

/-- `windows.rectangular_window`: all ones; empty for `length <= 0`. -/
def rectangular_window (length : Int) : List FV :=
  if length ≤ 0 then []
  else List.replicate length.toNat (some 1)

/-- Integer ceiling division for a positive divisor, the exact value of
`np.ceil(a / b)` as computed in `preprocessing.framing`. -/
def ceilDivInt (a b : Int) : Int := -((-a) / b)

/-- `num_frames = 1 + ceil((L - frame_size) / hop_size)` from
`preprocessing.framing`. -/
def numFramesI (L frame_size hop_size : Int) : Int :=
  1 + ceilDivInt (L - frame_size) hop_size

/-- The window dispatch of `preprocessing.framing`: `"hamming"`, `"hanning"`,
anything else rectangular. -/
def windowOfType (cos2pi : ℚ → ℚ) (window_type : String) (length : Int) :
    List FV :=
  if window_type = "hamming" then hamming_window cos2pi length
  else if window_type = "hanning" then hanning_window cos2pi length
  else rectangular_window length

/-- The zero-padded signal of `preprocessing.framing`:
`pad_length = (num_frames - 1)*hop_size + frame_size`, padding
`max(0, pad_length - L)` zeros on the right (`Int.toNat` is that `max`). -/
def paddedSignal (signal : List ℚ) (frame_size hop_size : Int) : List FV :=
  signal.map some ++
    List.replicate
      ((numFramesI (signal.length : Int) frame_size hop_size - 1) * hop_size
        + frame_size - (signal.length : Int)).toNat
      (some 0)

/-- `preprocessing.framing`.  Degenerate inputs return zero frames
(guard lines 71-72).  When `num_frames` is negative, `np.tile` with a
negative repetition count raises `ValueError`; this is modelled by `none`.
Otherwise frame `k` is the slice `[k*hop_size, k*hop_size + frame_size)` of
the padded signal multiplied elementwise by the window. -/
def framing (cos2pi : ℚ → ℚ) (signal : List ℚ) (frame_size hop_size : Int)
    (window_type : String) : Option (List (List FV)) :=
  if frame_size ≤ 0 ∨ hop_size ≤ 0 ∨ signal.length = 0 then some []
  else if numFramesI (signal.length : Int) frame_size hop_size < 0 then none
  else some
    ((List.range (numFramesI (signal.length : Int) frame_size hop_size).toNat).map
      fun k =>
        List.zipWith fmul
          (((paddedSignal signal frame_size hop_size).drop
              (k * hop_size.toNat)).take frame_size.toNat)
          (windowOfType cos2pi window_type frame_size))

/-- `np.sign` on a finite float value. -/
def np_sign (x : ℚ) : Int :=
  if 0 < x then 1 else if x < 0 then -1 else 0

namespace time_features

/-- `time_features.calculate_short_time_energy` on a 2-D frame array
(modelled as a list of rows): empty when the array has no element
(`frames.size == 0`), otherwise the per-row sum of squares. -/
def calculate_short_time_energy (frames : List (List ℚ)) : List ℚ :=
  if (frames.map List.length).sum = 0 then []
  else frames.map fun fr => (fr.map fun x => x ^ 2).sum

/-- `time_features.calculate_zero_crossing_rate` on a 2-D frame array:
empty when the array has no element, otherwise for each row the number of
adjacent pairs with `|sign diff| > 0`, divided by the column count
(`frames.shape[1]`, uniform across rows of a numpy array). -/
def calculate_zero_crossing_rate (frames : List (List ℚ)) : List ℚ :=
  if (frames.map List.length).sum = 0 then []
  else
    let cols := (frames.headD []).length
    frames.map fun fr =>
      (((List.zipWith (fun a b => decide (0 < |np_sign b - np_sign a|))
          fr fr.tail).count true : ℚ) / (cols : ℚ))

end time_features

namespace SignalProcessing

/-- `SignalProcessing.calculate_zero_crossing_rate` on a single 1-D frame:
`signs = np.sign(frame)`, `crossings = sum(|np.diff(signs)| > 0)`,
result `crossings / frame.size`, and `0.0` for an empty frame. -/
def calculate_zero_crossing_rate (frame : List ℚ) : ℚ :=
  if frame.length = 0 then 0
  else
    ((List.zipWith (fun a b => decide (0 < |np_sign b - np_sign a|))
        frame frame.tail).count true : ℚ) / (frame.length : ℚ)

end SignalProcessing

/-- Zero-crossing count following the words of the spec (claim C5), for
comparison with the source definition: an adjacency counts only when both
samples are nonzero and their signs differ, so an adjacency touching an
exact zero contributes nothing. -/
def zcr_spec_count (frame : List ℚ) : Nat :=
  (List.zipWith (fun a b => decide (a ≠ 0 ∧ b ≠ 0 ∧ np_sign a ≠ np_sign b))
      frame frame.tail).count true

/-- Zero-crossing rate following the words of the spec (claim C5). -/
def zcr_spec (frame : List ℚ) : ℚ :=
  if frame.length = 0 then 0
  else (zcr_spec_count frame : ℚ) / (frame.length : ℚ)

/-- `np.mean` of a list (the empty case never reaches the division in the
source because it is always guarded; in `ℚ` the unguarded value is `0`). -/
def listMean (xs : List ℚ) : ℚ := xs.sum / (xs.length : ℚ)

/-- `vad.adaptive_voice_activity_detection`: blends the historical mean with
the current-batch mean through `alpha`, floors the energy threshold at
`min_energy_threshold`, ceils the zcr threshold at `max_zcr_threshold`, and
decides `energy > energy_th AND zcr > zcr_th` elementwise. -/
def adaptive_voice_activity_detection (energy zcr : List ℚ)
    (energy_history zcr_history : List ℚ)
    (alpha min_energy_threshold max_zcr_threshold : ℚ) : List Bool :=
  let cur_energy_mean := if energy.length ≠ 0 then listMean energy else 0
  let cur_zcr_mean := if zcr.length ≠ 0 then listMean zcr else 0
  let hist_energy :=
    if energy_history.length ≠ 0 then listMean energy_history
    else cur_energy_mean
  let hist_zcr :=
    if zcr_history.length ≠ 0 then listMean zcr_history else cur_zcr_mean
  let energy_th :=
    max min_energy_threshold (alpha * hist_energy + (1 - alpha) * cur_energy_mean)
  let zcr_th :=
    min max_zcr_threshold (alpha * hist_zcr + (1 - alpha) * cur_zcr_mean)
  List.zipWith (fun e z => decide (energy_th < e) && decide (zcr_th < z))
    energy zcr

/-- The VAD smoothing counters of `AudioRuntime`
(`_vad_hold`, `_silence_run`, `_voice_run`, engine lines 124-126). -/
structure VadSmoothState where
  hold : Int
  silenceRun : Int
  voiceRun : Int
deriving DecidableEq

/-- One step of the attack/hangover smoothing block of
`AudioRuntime._signal_processing_thread` (engine lines 443-462), as a pure
function of the raw decision and the prior counters.  Returns the next
counters and the emitted decision (1 voice, 0 silence).  Note that the
source consults `Config.VAD_HANGOVER_ON` but never `Config.VAD_RELEASE_OFF`:
once the hold counter is exhausted the step emits 0 immediately. -/
def vadSmoothStep (attack hangover : Int) (s : VadSmoothState) (raw : Bool) :
    VadSmoothState × Int :=
  let voiceRun : Int := if raw then s.voiceRun + 1 else 0
  if raw ∧ attack ≤ voiceRun then
    (⟨max s.hold hangover, 0, voiceRun⟩, 1)
  else if 0 < s.hold then
    (⟨s.hold - 1, 0, voiceRun⟩, 1)
  else
    (⟨s.hold, s.silenceRun + 1, voiceRun⟩, 0)

/-- Iterate `vadSmoothStep` over a sequence of raw decisions, collecting the
emitted decisions. -/
def vadSmoothRun (attack hangover : Int) :
    VadSmoothState → List Bool → List Int
  | _, [] => []
  | s, r :: rs =>
    let next := vadSmoothStep attack hangover s r
    next.2 :: vadSmoothRun attack hangover next.1 rs

/-- `min hi (max lo x)`, the value of `np.clip(x, lo, hi)`. -/
def clipQ (x lo hi : ℚ) : ℚ := min hi (max lo x)

/-- `np.percentile(xs, q)` with the default linear interpolation:
sort ascending, `pos = q/100 * (n-1)`, interpolate between the neighbouring
order statistics. -/
def percentileNp (xs : List ℚ) (q : ℚ) : ℚ :=
  let sorted := List.insertionSort (· ≤ ·) xs
  if sorted.length = 0 then 0
  else
    let pos : ℚ := q / 100 * ((sorted.length : ℚ) - 1)
    let i : Nat := (Int.floor pos).toNat
    let a := sorted.getD i 0
    match sorted.get? (i + 1) with
    | some b => a + (pos - (i : ℚ)) * (b - a)
    | none => a

/-- The configuration values read by the auto-calibration block of the
engine: `AUTO_CALIBRATE_THRESHOLDS`, `CALIBRATION_FRAMES` (the target,
already coerced through `_calibration_frames_target`), the three percentile
settings and `MIN_ENERGY_THRESHOLD`. -/
structure CalibConfig where
  autoCalibrate : Bool
  target : Int
  energyPercentile : ℚ
  zcrPercentile : ℚ
  entropyPercentile : ℚ
  minEnergyThreshold : ℚ

/-- The calibration state of `AudioRuntime` together with the threshold
state it mutates: `_calibration_done`, the three collection buffers, and
`energy_threshold` / `zcr_threshold` / `spec_entropy_voice_max`. -/
structure CalibState where
  done : Bool
  calEnergy : List ℚ
  calZcr : List ℚ
  calEntropy : List ℚ
  energyThreshold : ℚ
  zcrThreshold : ℚ
  specEntropyVoiceMax : ℚ
deriving DecidableEq

/-- The auto-calibration block of `_signal_processing_thread`
(engine lines 396-419) for one frame with features `e` (energy), `z` (zcr)
and `sn` (spectral entropy): while enabled and not yet done, append to the
buffers; once the target is positive and reached, set the thresholds from
the configured percentiles (energy floored at the configured minimum, zcr
clipped to `[0, 0.5]`, entropy clipped to `[0, 1]`) and mark done. -/
def calibrationStep (cfg : CalibConfig) (s : CalibState) (e z sn : ℚ) :
    CalibState :=
  if cfg.autoCalibrate ∧ s.done = false then
    let ce := s.calEnergy ++ [e]
    let cz := s.calZcr ++ [z]
    let cs := s.calEntropy ++ [sn]
    if 0 < cfg.target ∧ cfg.target ≤ (ce.length : Int) then
      { done := true, calEnergy := ce, calZcr := cz, calEntropy := cs,
        energyThreshold :=
          max cfg.minEnergyThreshold (percentileNp ce cfg.energyPercentile),
        zcrThreshold := clipQ (percentileNp cz cfg.zcrPercentile) 0 (1/2),
        specEntropyVoiceMax :=
          clipQ (percentileNp cs cfg.entropyPercentile) 0 1 }
    else
      { s with calEnergy := ce, calZcr := cz, calEntropy := cs }
  else s

/-- A record of `processed_data` (engine lines 476-485). -/
structure FeatureRecord where
  energy : ℚ
  zcr : ℚ
  vad : Int
  specEntropy : ℚ
  vadAdaptive : Int
  mfcc : List ℚ
deriving DecidableEq

/-- The per-session mutable state of `AudioRuntime` touched by
`set_audio_source`: the queues and histories, the calibration state, the
threshold state and the VAD smoothing counters.  Raw chunks are lists of
int16 samples. -/
structure AudioRuntimeState where
  audioBuffer : List (List Int)
  audioDisplayBuffer : List (List Int)
  processedData : List FeatureRecord
  energyHistory : List ℚ
  zcrHistory : List ℚ
  calibrationDone : Bool
  calEnergy : List ℚ
  calZcr : List ℚ
  calEntropy : List ℚ
  energyThreshold : ℚ
  zcrThreshold : ℚ
  specEntropyVoiceMax : ℚ
  vadHold : Int
  silenceRun : Int
  voiceRun : Int
deriving DecidableEq

/-- The state mutation of `AudioRuntime.set_audio_source`
(engine lines 161-171): clear the buffers and histories and reset the
auto-calibration state.  The threshold fields and the three VAD smoothing
counters are not touched by the source. -/
def set_audio_source (s : AudioRuntimeState) : AudioRuntimeState :=
  { s with
    audioBuffer := [], processedData := [], energyHistory := [],
    zcrHistory := [], audioDisplayBuffer := [],
    calibrationDone := false, calEnergy := [], calZcr := [], calEntropy := [] }

/-- Appending to a `collections.deque` with `maxlen = cap`: the new element
goes to the right, and when the deque is full the oldest (leftmost) element
is evicted; the producer is never blocked. -/
def dequePush {α : Type} (cap : Nat) (q : List α) (x : α) : List α :=
  (q ++ [x]).drop (q.length + 1 - cap)

/-- Push a whole sequence of chunks, in arrival order, into a bounded deque
(the raw-sample queue `audio_buffer` has `maxlen = Config.AUDIO_BUFFER_SIZE
= 4`; engine lines 106 and 280-283). -/
def dequeExtend {α : Type} (cap : Nat) (q : List α) (xs : List α) : List α :=
  xs.foldl (dequePush cap) q

/-- Claim C2: with `attack = 1` and `hangover_on = 3` (and `release_off = 2`,
which the smoothing block does not read), a single voiced frame followed by
five silent frames yields the decisions `[1, 1, 1, 1, 0, 0]` from the
initial state SILENCE with all counters zero. -/
theorem vadSmoothRun_hysteresis_sequence :
    vadSmoothRun 1 3 ⟨0, 0, 0⟩ [true, false, false, false, false, false] =
      [1, 1, 1, 1, 0, 0] := by decide

/-- Claim C1, counterexample: in the state with all counters zero (hold
expired) and raw decision false, with `release_off = 2`, the engine emits 0
even though the incremented `silence_run` (= 1) is still below
`release_off`; the claim would require it to continue emitting VOICE. -/
theorem vadSmoothStep_release_not_consulted :
    (vadSmoothStep 1 3 ⟨0, 0, 0⟩ false).2 = 0 ∧ ¬ ((2 : Int) ≤ 0 + 1) := by
  decide

/-- Claim C1, amended: on a frame whose raw decision is false and whose hold
counter is expired, the smoothing block increments `silence_run` and emits
SILENCE immediately; `Config.VAD_RELEASE_OFF` is never consulted, so no such
frame emits VOICE. -/
theorem vadSmoothStep_silence_immediate (attack hangover : Int)
    (s : VadSmoothState) (hhold : s.hold ≤ 0) :
    vadSmoothStep attack hangover s false =
      (⟨s.hold, s.silenceRun + 1, 0⟩, 0) := by
  have h2 : ¬ 0 < s.hold := not_lt.mpr hhold
  simp [vadSmoothStep, h2]

/-- Witness for the amended claim C1 at a concrete state. -/
theorem vadSmoothStep_silence_immediate_witness :
    vadSmoothStep 1 3 ⟨0, 5, 0⟩ false = (⟨0, 6, 0⟩, 0) :=
  vadSmoothStep_silence_immediate 1 3 ⟨0, 5, 0⟩ (by decide)

/-- Claim C4, counterexample: `set_audio_source` does not reset the VAD
hysteresis counters; replacing the source in a state with `_vad_hold = 2`
leaves `_vad_hold = 2`, not its initial value 0 (engine line 124). -/
theorem set_audio_source_keeps_vad_hold :
    (set_audio_source
      { audioBuffer := [], audioDisplayBuffer := [], processedData := [],
        energyHistory := [], zcrHistory := [], calibrationDone := false,
        calEnergy := [], calZcr := [], calEntropy := [],
        energyThreshold := 1000, zcrThreshold := 3/10,
        specEntropyVoiceMax := 13/20,
        vadHold := 2, silenceRun := 0, voiceRun := 0 }).vadHold ≠ 0 := by
  decide

/-- Claim C4, amended: `set_audio_source` resets the raw-sample queue, the
display queue, the processed-feature history, the adaptive energy/zcr
history buffers, and the calibration buffers and done-flag to their initial
empty/false values, but it leaves the VAD hysteresis counters
(`_vad_hold`, `_silence_run`, `_voice_run`) untouched. -/
theorem set_audio_source_resets_except_vad_counters (s : AudioRuntimeState) :
    (set_audio_source s).audioBuffer = []
    ∧ (set_audio_source s).audioDisplayBuffer = []
    ∧ (set_audio_source s).processedData = []
    ∧ (set_audio_source s).energyHistory = []
    ∧ (set_audio_source s).zcrHistory = []
    ∧ (set_audio_source s).calibrationDone = false
    ∧ (set_audio_source s).calEnergy = []
    ∧ (set_audio_source s).calZcr = []
    ∧ (set_audio_source s).calEntropy = []
    ∧ (set_audio_source s).vadHold = s.vadHold
    ∧ (set_audio_source s).silenceRun = s.silenceRun
    ∧ (set_audio_source s).voiceRun = s.voiceRun :=
  ⟨rfl, rfl, rfl, rfl, rfl, rfl, rfl, rfl, rfl, rfl, rfl, rfl⟩

/-- Claim C5, counterexample: on the frame `[1, 0]` the source counts the
adjacency between a positive sample and an exact zero as a crossing
(`|sign(0) - sign(1)| = 1 > 0`), returning `1/2`, while the claim predicts
`0` (a zero-touching adjacency contributing nothing). -/
theorem zero_sample_adjacency_counts :
    SignalProcessing.calculate_zero_crossing_rate [1, 0] ≠ zcr_spec [1, 0] := by
  have h1 : SignalProcessing.calculate_zero_crossing_rate [1, 0] = 1/2 := by
    norm_num [SignalProcessing.calculate_zero_crossing_rate, np_sign]
  have h2 : zcr_spec [1, 0] = 0 := by
    norm_num [zcr_spec, zcr_spec_count, np_sign]
  rw [h1, h2]
  norm_num

/-- Claim C5, amended: for every non-empty frame the zero-crossing rate is
the number of adjacencies whose numpy signs differ (so an adjacency between
a nonzero sample and an exact zero does count as a crossing), divided by the
frame length. -/
theorem calculate_zero_crossing_rate_sign_changes (frame : List ℚ)
    (hne : frame ≠ []) :
    SignalProcessing.calculate_zero_crossing_rate frame =
      ((List.zipWith (fun a b => decide (np_sign a ≠ np_sign b))
          frame frame.tail).count true : ℚ) / (frame.length : ℚ) := by
  have hlen : frame.length ≠ 0 := fun h => hne (List.length_eq_zero.mp h)
  have hfun : (fun a b : ℚ => decide (0 < |np_sign b - np_sign a|))
      = fun a b : ℚ => decide (np_sign a ≠ np_sign b) := by
    funext a b
    refine decide_eq_decide.mpr ?_
    rw [abs_pos, sub_ne_zero]
    exact ne_comm
  unfold SignalProcessing.calculate_zero_crossing_rate
  rw [if_neg hlen, hfun]

/-- Witness for the amended claim C5 at the concrete frame `[1, -1]`. -/
theorem calculate_zero_crossing_rate_sign_changes_witness :
    SignalProcessing.calculate_zero_crossing_rate [1, -1] =
      ((List.zipWith (fun a b => decide (np_sign a ≠ np_sign b))
          ([1, -1] : List ℚ) ([1, -1] : List ℚ).tail).count true : ℚ)
        / ((([1, -1] : List ℚ).length : ℚ)) :=
  calculate_zero_crossing_rate_sign_changes [1, -1] (by decide)

/-- Claim C7: with non-empty energy and zcr histories, the adaptive VAD
decision is `energy > max(min_energy_threshold, alpha*mean(hist) +
(1-alpha)*mean(batch))` AND `zcr > min(max_zcr_threshold, alpha*mean(hist)
+ (1-alpha)*mean(batch))`: the blended energy threshold is floored, the
blended zcr threshold is ceiled, and both comparisons are strict. -/
theorem adaptive_vad_blended_thresholds (energy zcr eh zh : List ℚ)
    (alpha minE maxZ : ℚ) (heh : eh ≠ []) (hzh : zh ≠ []) :
    adaptive_voice_activity_detection energy zcr eh zh alpha minE maxZ =
      List.zipWith (fun e z =>
        decide (max minE (alpha * listMean eh + (1 - alpha) * listMean energy) < e)
          && decide (min maxZ (alpha * listMean zh + (1 - alpha) * listMean zcr) < z))
        energy zcr := by
  have heh0 : eh.length ≠ 0 := fun h => heh (List.length_eq_zero.mp h)
  have hzh0 : zh.length ≠ 0 := fun h => hzh (List.length_eq_zero.mp h)
  have he : (if energy.length ≠ 0 then listMean energy else 0) =
      listMean energy := by
    rcases Decidable.em (energy.length = 0) with h | h
    · simp [h, List.length_eq_zero.mp h, listMean]
    · simp [h]
  have hz : (if zcr.length ≠ 0 then listMean zcr else 0) = listMean zcr := by
    rcases Decidable.em (zcr.length = 0) with h | h
    · simp [h, List.length_eq_zero.mp h, listMean]
    · simp [h]
  simp only [adaptive_voice_activity_detection, he, hz, if_pos heh0,
    if_pos hzh0]

/-- Witness for claim C7 at concrete batches and histories. -/
theorem adaptive_vad_blended_thresholds_witness :
    adaptive_voice_activity_detection [5] [1/2] [4] [1/4] (4/5) (1/1000000)
        (1/2) =
      List.zipWith (fun e z =>
        decide (max (1/1000000)
            ((4/5) * listMean [4] + (1 - 4/5) * listMean [5]) < e)
          && decide (min (1/2)
            ((4/5) * listMean [1/4] + (1 - 4/5) * listMean [1/2]) < z))
        [5] [1/2] :=
  adaptive_vad_blended_thresholds [5] [1/2] [4] [1/4] (4/5) (1/1000000) (1/2)
    (by decide) (by decide)

/-- Claim C9: on a degenerate input (non-positive frame size, non-positive
hop size, or an empty signal) `framing` returns zero frames without raising
(the `np.tile` path modelled by `none` is never reached), and the feature
functions on the resulting empty frame array return empty feature arrays. -/
theorem degenerate_inputs_yield_empty (cos2pi : ℚ → ℚ) (signal : List ℚ)
    (F H : Int) (wt : String)
    (h : F ≤ 0 ∨ H ≤ 0 ∨ signal.length = 0) :
    framing cos2pi signal F H wt = some []
    ∧ time_features.calculate_short_time_energy [] = []
    ∧ time_features.calculate_zero_crossing_rate [] = [] := by
  refine ⟨?_, rfl, rfl⟩
  unfold framing
  rw [if_pos h]

/-- Witness for claim C9 on the empty signal. -/
theorem degenerate_inputs_yield_empty_witness :
    framing (fun _ => 0) [] 320 160 "hamming" = some []
    ∧ time_features.calculate_short_time_energy [] = []
    ∧ time_features.calculate_zero_crossing_rate [] = [] :=
  degenerate_inputs_yield_empty (fun _ => 0) [] 320 160 "hamming" (by decide)

/-- Once calibration is done, the calibration block is a no-op: the guard
`AUTO_CALIBRATE_THRESHOLDS and not _calibration_done` fails. -/
lemma calibrationStep_of_done (cfg : CalibConfig) (s : CalibState)
    (e z sn : ℚ) (h : s.done = true) : calibrationStep cfg s e z sn = s := by
  unfold calibrationStep
  rw [if_neg]
  simp [h]

/-- Once calibration is done, any sequence of further frames leaves the
whole calibration/threshold state unchanged. -/
lemma calibrationFold_of_done (cfg : CalibConfig) (rest : List (ℚ × ℚ × ℚ))
    (s : CalibState) (h : s.done = true) :
    rest.foldl (fun st f => calibrationStep cfg st f.1 f.2.1 f.2.2) s = s := by
  induction rest with
  | nil => rfl
  | cons hd tl ih =>
    rw [List.foldl_cons, calibrationStep_of_done cfg s hd.1 hd.2.1 hd.2.2 h]
    exact ih

/-- Claim C6: with auto-calibration enabled and a positive target `N`, at
the frame where the `N`-th calibration sample is collected the thresholds
are set to `energy = max(configured minimum, energy percentile)`,
`zcr = clip(zcr percentile, 0, 0.5)` and `entropy = clip(entropy
percentile, 0, 1)`, computed over the `N` collected frames, the done-flag
is raised, and every later frame of the session leaves the thresholds (in
fact the whole calibration state) unchanged. -/
theorem calibration_fires_once_and_freezes (cfg : CalibConfig)
    (s : CalibState) (e z sn : ℚ) (hauto : cfg.autoCalibrate = true)
    (hdone : s.done = false) (htgt : 0 < cfg.target)
    (hlen : (s.calEnergy.length : Int) + 1 = cfg.target) :
    (calibrationStep cfg s e z sn).done = true
    ∧ (calibrationStep cfg s e z sn).energyThreshold =
        max cfg.minEnergyThreshold
          (percentileNp (s.calEnergy ++ [e]) cfg.energyPercentile)
    ∧ (calibrationStep cfg s e z sn).zcrThreshold =
        clipQ (percentileNp (s.calZcr ++ [z]) cfg.zcrPercentile) 0 (1/2)
    ∧ (calibrationStep cfg s e z sn).specEntropyVoiceMax =
        clipQ (percentileNp (s.calEntropy ++ [sn]) cfg.entropyPercentile) 0 1
    ∧ ∀ rest : List (ℚ × ℚ × ℚ),
        rest.foldl (fun st f => calibrationStep cfg st f.1 f.2.1 f.2.2)
          (calibrationStep cfg s e z sn) = calibrationStep cfg s e z sn := by
  have hfire : 0 < cfg.target ∧ cfg.target ≤ ((s.calEnergy ++ [e]).length : Int) := by
    refine ⟨htgt, ?_⟩
    have hone : (s.calEnergy ++ [e]).length = s.calEnergy.length + 1 := by
      simp
    rw [hone]
    push_cast
    omega
  have hstep : calibrationStep cfg s e z sn =
      { done := true, calEnergy := s.calEnergy ++ [e],
        calZcr := s.calZcr ++ [z], calEntropy := s.calEntropy ++ [sn],
        energyThreshold :=
          max cfg.minEnergyThreshold
            (percentileNp (s.calEnergy ++ [e]) cfg.energyPercentile),
        zcrThreshold :=
          clipQ (percentileNp (s.calZcr ++ [z]) cfg.zcrPercentile) 0 (1/2),
        specEntropyVoiceMax :=
          clipQ (percentileNp (s.calEntropy ++ [sn]) cfg.entropyPercentile)
            0 1 } := by
    unfold calibrationStep
    rw [if_pos ⟨hauto, hdone⟩, if_pos hfire]
  refine ⟨by rw [hstep], by rw [hstep], by rw [hstep], by rw [hstep], ?_⟩
  intro rest
  exact calibrationFold_of_done cfg rest _ (by rw [hstep])

/-- Witness for claim C6 with target 1 and a single calibration frame,
then one further frame kept frozen. -/
theorem calibration_fires_once_and_freezes_witness :
    (calibrationStep ⟨true, 1, 80, 30, 70, 0⟩
        ⟨false, [], [], [], 1000, 3/10, 13/20⟩ 5 (1/4) (1/2)).done = true
    ∧ [((2 : ℚ), (3 : ℚ), (4 : ℚ))].foldl
        (fun st f => calibrationStep ⟨true, 1, 80, 30, 70, 0⟩ st f.1 f.2.1 f.2.2)
        (calibrationStep ⟨true, 1, 80, 30, 70, 0⟩
          ⟨false, [], [], [], 1000, 3/10, 13/20⟩ 5 (1/4) (1/2)) =
      calibrationStep ⟨true, 1, 80, 30, 70, 0⟩
        ⟨false, [], [], [], 1000, 3/10, 13/20⟩ 5 (1/4) (1/2) :=
  ⟨(calibration_fires_once_and_freezes ⟨true, 1, 80, 30, 70, 0⟩
      ⟨false, [], [], [], 1000, 3/10, 13/20⟩ 5 (1/4) (1/2) rfl rfl (by decide)
      (by decide)).1,
   (calibration_fires_once_and_freezes ⟨true, 1, 80, 30, 70, 0⟩
      ⟨false, [], [], [], 1000, 3/10, 13/20⟩ 5 (1/4) (1/2) rfl rfl (by decide)
      (by decide)).2.2.2.2 [(2, 3, 4)]⟩

/-- Closed form for pushing a sequence into a bounded deque: starting from a
deque holding at most `cap` entries, the result is the last `cap` entries of
the concatenation. -/
lemma dequeExtend_eq {α : Type} (cap : Nat) (xs : List α) :
    ∀ q : List α, q.length ≤ cap →
      dequeExtend cap q xs = (q ++ xs).drop (q.length + xs.length - cap) := by
  induction xs with
  | nil =>
    intro q hq
    simp [dequeExtend, Nat.sub_eq_zero_of_le hq]
  | cons x xs ih =>
    intro q hq
    have hlen1 : (dequePush cap q x).length = q.length + 1 - (q.length + 1 - cap) := by
      simp [dequePush, List.length_drop]
    have hq1 : (dequePush cap q x).length ≤ cap := by omega
    have hstep : dequeExtend cap q (x :: xs) =
        dequeExtend cap (dequePush cap q x) xs := rfl
    rw [hstep, ih _ hq1, hlen1]
    have hqx : (q ++ [x]).length = q.length + 1 := by simp
    have hdle : q.length + 1 - cap ≤ (q ++ [x]).length := by
      rw [hqx]
      omega
    rw [dequePush, ← List.drop_append_of_le_length hdle, List.drop_drop,
      List.append_assoc, List.singleton_append]
    congr 1
    simp only [List.length_cons]
    omega

/-- Claim C8: pushing more chunks than the raw-sample queue capacity (4)
into the empty queue with no intervening pops retains exactly 4 chunks,
namely the most recently pushed ones in arrival order; `dequePush` is a
total function, so the producer is never blocked. -/
theorem raw_queue_keeps_most_recent {α : Type} (cs : List α)
    (h : 4 < cs.length) :
    dequeExtend 4 [] cs = cs.drop (cs.length - 4)
    ∧ (dequeExtend 4 [] cs).length = 4 := by
  have h0 := dequeExtend_eq 4 cs [] (by simp)
  simp only [List.nil_append, List.length_nil, Nat.zero_add] at h0
  refine ⟨h0, ?_⟩
  rw [h0, List.length_drop]
  omega

/-- Witness for claim C8: pushing five chunks keeps the last four. -/
theorem raw_queue_keeps_most_recent_witness :
    dequeExtend 4 [] [1, 2, 3, 4, 5] =
      ([1, 2, 3, 4, 5] : List ℕ).drop (([1, 2, 3, 4, 5] : List ℕ).length - 4)
    ∧ (dequeExtend 4 ([] : List ℕ) [1, 2, 3, 4, 5]).length = 4 :=
  raw_queue_keeps_most_recent [1, 2, 3, 4, 5] (by decide)

/-- Claim C10: at window length exactly 1 the cosine argument is `0/0` and
both Hamming and Hanning windows return a single NaN entry; the empty
guard fires only for lengths at most 0; and for every length at least 2
every returned coefficient is finite. -/
theorem window_length_one_nan (cos2pi : ℚ → ℚ) :
    (hamming_window cos2pi 1 = [none] ∧ hanning_window cos2pi 1 = [none])
    ∧ (∀ n : Int, n ≤ 0 →
        hamming_window cos2pi n = [] ∧ hanning_window cos2pi n = [])
    ∧ (∀ n : Int, 2 ≤ n →
        (∀ x ∈ hamming_window cos2pi n, x.isSome = true)
        ∧ (∀ x ∈ hanning_window cos2pi n, x.isSome = true)) := by
  refine ⟨⟨?_, ?_⟩, ?_, ?_⟩
  · simp [hamming_window, fsub, fmul, fcos2pi, fdiv, List.range_succ]
  · simp [hanning_window, fsub, fmul, fcos2pi, fdiv, List.range_succ]
  · intro n hn
    exact ⟨by simp [hamming_window, hn], by simp [hanning_window, hn]⟩
  · intro n hn
    have hpos : ¬ n ≤ 0 := by omega
    have hd : ((n : ℚ) - 1) ≠ 0 := by
      have h2 : (2 : ℚ) ≤ (n : ℚ) := by exact_mod_cast hn
      linarith
    constructor <;> intro x hx
    · unfold hamming_window at hx
      rw [if_neg hpos, List.mem_map] at hx
      obtain ⟨i, hi, rfl⟩ := hx
      simp [fsub, fmul, fcos2pi, fdiv, hd]
    · unfold hanning_window at hx
      rw [if_neg hpos, List.mem_map] at hx
      obtain ⟨i, hi, rfl⟩ := hx
      simp [fsub, fmul, fcos2pi, fdiv, hd]

/-- Witness for claim C10: the guard cases at lengths 1, 0 and 2. -/
theorem window_length_one_nan_witness :
    hamming_window (fun _ => 0) 1 = [none]
    ∧ hamming_window (fun _ => 0) 0 = []
    ∧ Option.isSome (some (1/2 : ℚ)) = true :=
  ⟨(window_length_one_nan (fun _ => 0)).1.1,
   ((window_length_one_nan (fun _ => 0)).2.1 0 (by decide)).1,
   ((window_length_one_nan (fun _ => 0)).2.2 2 (by decide)).2 (some (1/2))
     (by
       unfold hanning_window
       rw [if_neg (by norm_num)]
       rw [show Int.toNat 2 = 2 from rfl, List.range_succ, List.range_succ,
         List.range_zero]
       simp [fmul, fsub, fcos2pi, fdiv]
       norm_num)⟩

/-- `b * ceil(a/b)` dominates `a` for positive `b`. -/
lemma le_ceilDivInt_mul (a b : Int) (hb : 0 < b) : a ≤ ceilDivInt a b * b := by
  have h := Int.ediv_mul_le (-a) (ne_of_gt hb)
  unfold ceilDivInt
  rw [neg_mul]
  linarith

/-- Every window kind produces a vector of length `length.toNat`. -/
lemma windowOfType_length (c : ℚ → ℚ) (wt : String) (n : Int) :
    (windowOfType c wt n).length = n.toNat := by
  have hh : (hamming_window c n).length = n.toNat := by
    unfold hamming_window
    rcases Decidable.em (n ≤ 0) with h | h
    · rw [if_pos h, List.length_nil, Int.toNat_of_nonpos h]
    · rw [if_neg h, List.length_map, List.length_range]
  have hha : (hanning_window c n).length = n.toNat := by
    unfold hanning_window
    rcases Decidable.em (n ≤ 0) with h | h
    · rw [if_pos h, List.length_nil, Int.toNat_of_nonpos h]
    · rw [if_neg h, List.length_map, List.length_range]
  have hr : (rectangular_window n).length = n.toNat := by
    unfold rectangular_window
    rcases Decidable.em (n ≤ 0) with h | h
    · rw [if_pos h, List.length_nil, Int.toNat_of_nonpos h]
    · rw [if_neg h, List.length_replicate]
  unfold windowOfType
  split_ifs <;> assumption

/-- Claim C3, counterexample: on the one-sample signal `[1]` with
`frame_size = 10` and `hop_size = 1`, `num_frames = 1 + ceil((1-10)/1) =
-8`, and `np.tile` with a negative repetition count raises instead of
returning `1 + ceil((L-F)/H)` frames; the raising path is modelled by
`none`. -/
theorem framing_negative_tile_none :
    framing (fun _ => 0) [1] 10 1 "rectangular" = none := by rfl

/-- Claim C3, amended: for every signal of positive length `L` and positive
`frame_size` and `hop_size` such that `1 + ceil((L - frame_size)/hop_size)`
is non-negative (in particular whenever `L >= frame_size`), `framing`
returns exactly that many frames, each of length exactly `frame_size`,
where frame `k` is the slice `[k*hop, k*hop + frame_size)` of the
zero-right-padded signal multiplied elementwise by the window; when the
count is negative, the `np.tile` call raises instead (see the
counterexample). -/
theorem framing_frame_count (cos2pi : ℚ → ℚ) (signal : List ℚ) (F H : Int)
    (wt : String) (hL : 0 < signal.length) (hF : 0 < F) (hH : 0 < H)
    (hnn : 0 ≤ numFramesI (signal.length : Int) F H) :
    ∃ frames,
      framing cos2pi signal F H wt = some frames
      ∧ frames =
          (List.range (numFramesI (signal.length : Int) F H).toNat).map
            (fun k =>
              List.zipWith fmul
                (((paddedSignal signal F H).drop (k * H.toNat)).take F.toNat)
                (windowOfType cos2pi wt F))
      ∧ (frames.length : Int) = numFramesI (signal.length : Int) F H
      ∧ ∀ fr ∈ frames, (fr.length : Int) = F := by
  refine ⟨_, ?_, rfl, ?_, ?_⟩
  · have h1 : ¬ (F ≤ 0 ∨ H ≤ 0 ∨ signal.length = 0) := by
      push_neg
      exact ⟨by omega, by omega, by omega⟩
    unfold framing
    rw [if_neg h1, if_neg (not_lt.mpr hnn)]
  · simp [Int.toNat_of_nonneg hnn]
  · intro fr hfr
    rw [List.mem_map] at hfr
    obtain ⟨k, hk, rfl⟩ := hfr
    rw [List.mem_range] at hk
    have hkn : (k : Int) < numFramesI (signal.length : Int) F H := by omega
    have h2 : numFramesI (signal.length : Int) F H - 1 =
        ceilDivInt ((signal.length : Int) - F) H := by
      unfold numFramesI
      ring
    have hc : (signal.length : Int) - F ≤
        (numFramesI (signal.length : Int) F H - 1) * H := by
      rw [h2]
      exact le_ceilDivInt_mul ((signal.length : Int) - F) H hH
    have hpadnn : 0 ≤ (numFramesI (signal.length : Int) F H - 1) * H + F
        - (signal.length : Int) := by linarith
    have hpadlen : ((paddedSignal signal F H).length : Int) =
        (numFramesI (signal.length : Int) F H - 1) * H + F := by
      unfold paddedSignal
      rw [List.length_append, List.length_map, List.length_replicate]
      push_cast [Int.toNat_of_nonneg hpadnn]
      ring
    have hkH : ((k * H.toNat : Nat) : Int) + F ≤
        ((paddedSignal signal F H).length : Int) := by
      rw [hpadlen]
      have hcast : ((k * H.toNat : Nat) : Int) = (k : Int) * H := by
        push_cast [Int.toNat_of_nonneg hH.le]
        ring
      rw [hcast]
      have hmono : (k : Int) * H ≤
          (numFramesI (signal.length : Int) F H - 1) * H :=
        mul_le_mul_of_nonneg_right (by omega) hH.le
      linarith
    have hslice : k * H.toNat + F.toNat ≤ (paddedSignal signal F H).length := by
      have h3 : ((k * H.toNat + F.toNat : Nat) : Int)
          = ((k * H.toNat : Nat) : Int) + F := by
        push_cast [Int.toNat_of_nonneg hF.le]
        ring
      have h5 : ((k * H.toNat + F.toNat : Nat) : Int) ≤
          ((paddedSignal signal F H).length : Int) := by
        rw [h3]
        exact hkH
      exact_mod_cast h5
    have h6 : F.toNat ≤ (paddedSignal signal F H).length - k * H.toNat :=
      Nat.le_sub_of_add_le (by rw [Nat.add_comm]; exact hslice)
    rw [List.length_zipWith, windowOfType_length, List.length_take,
      List.length_drop, min_eq_left h6, min_self]
    exact Int.toNat_of_nonneg hF.le

/-- Witness for the amended claim C3: the three-sample signal `[1, 2, 3]`
with frame size 2 and hop 1 yields `1 + ceil((3-2)/1) = 2` frames. -/
theorem framing_frame_count_witness :
    ∃ frames,
      framing (fun _ => 0) [1, 2, 3] 2 1 "hamming" = some frames
      ∧ frames =
          (List.range
              (numFramesI ((([1, 2, 3] : List ℚ)).length : Int) 2 1).toNat).map
            (fun k =>
              List.zipWith fmul
                (((paddedSignal [1, 2, 3] 2 1).drop
                    (k * (1 : Int).toNat)).take (2 : Int).toNat)
                (windowOfType (fun _ => 0) "hamming" 2))
      ∧ (frames.length : Int) =
          numFramesI ((([1, 2, 3] : List ℚ)).length : Int) 2 1
      ∧ ∀ fr ∈ frames, (fr.length : Int) = 2 :=
  framing_frame_count (fun _ => 0) [1, 2, 3] 2 1 "hamming" (by decide)
    (by decide) (by decide) (by decide)
